import Mathlib

/-!
Shallow embedding of the validation core of `test_validators.py`
(`ToolCallLogger`, `DataFreshnessValidator`, `PriceAccuracyChecker`,
`HallucinationDetector`, `ValidationOrchestrator`) together with proofs
of the specified properties.

Python `float` values are embedded as `FVal` (an exact rational or NaN,
with NaN-propagating arithmetic, mirroring the IEEE behaviour the code
relies on); machine-level rounding is not modelled since no property
depends on it.  Python exceptions are embedded as `Except String`;
`try/except` blocks become matches on the `Except` value.  The external
live-price source (`yf.download` plus the empty-data check inside
`fetch_live_price`) is an oracle `String → Except String ℚ`.
-/

namespace TV

/-- Embedding of a Python `float`: an exact rational or NaN. -/
inductive FVal where
  | num (q : ℚ)
  | nan
deriving DecidableEq, Repr

instance : OfNat FVal n := ⟨FVal.num n⟩

/-- Subtraction on embedded floats; NaN propagates. -/
def fsub : FVal → FVal → FVal
  | .num a, .num b => .num (a - b)
  | _, _ => .nan

/-- Absolute value on embedded floats; NaN propagates. -/
def fabs : FVal → FVal
  | .num a => .num |a|
  | .nan => .nan

/-- Division on embedded floats; NaN propagates.  Division by an exact
zero would raise `ZeroDivisionError` in Python; every division in the
embedded code is guarded by a zero test, so that case is unreachable and
is mapped to NaN. -/
def fdiv : FVal → FVal → FVal
  | .num a, .num b => if b = 0 then .nan else .num (a / b)
  | _, _ => .nan

/-- Multiplication on embedded floats; NaN propagates. -/
def fmul : FVal → FVal → FVal
  | .num a, .num b => .num (a * b)
  | _, _ => .nan

/-- Embedding of `x <= t` for a float `x` against a rational bound:
any comparison with NaN is false. -/
def fleQ : FVal → ℚ → Bool
  | .num a, t => a ≤ t
  | .nan, _ => false

/-- Embedding of `a <= b` on floats: any comparison with NaN is false. -/
def fle : FVal → FVal → Bool
  | .num a, .num b => a ≤ b
  | _, _ => false

/-- Structured form of the strings produced by the checker methods; the
dynamic values interpolated by the Python f-strings are carried as
payloads. -/
inductive Msg where
  | fetchFailed (e : String)
  | invalidLive
  | withinTol (diffPct ai live : FVal)
  | tooLarge (diffPct ai live : FVal)
  | noRange
  | withinRange (ai : FVal) (lo hi : ℚ)
  | outsideRange (ai : FVal) (lo hi : ℚ)
deriving DecidableEq, Repr

/-- Symbol normalization inside `fetch_live_price`: a forex-style symbol
containing a slash has every slash removed and `=X` appended. -/
def normalizeSymbol (s : String) : String :=
  if s.toList.any (· = '/') then
    String.mk (s.toList.filter (· ≠ '/')) ++ "=X"
  else s

/-- Embedding of `PriceAccuracyChecker.fetch_live_price`: normalize the
symbol and consult the live-price oracle (which models `yf.download`,
the empty-data `ValueError`, and the `Close` extraction). -/
def fetch_live_price (ps : String → Except String ℚ) (symbol : String) :
    Except String ℚ :=
  ps (normalizeSymbol symbol)

/-- Shared tail of `validate_price` once a live price is at hand: the
zero-live guard, the percentage deviation, and the tolerance test. -/
def validate_price_core (tol : ℚ) (ai live : FVal) : Bool × Msg :=
  if live = FVal.num 0 then (false, .invalidLive)
  else
    let diffPct := fmul (fdiv (fabs (fsub ai live)) live) (.num 100)
    if fleQ diffPct tol then (true, .withinTol diffPct ai live)
    else (false, .tooLarge diffPct ai live)

/-- Embedding of `PriceAccuracyChecker.validate_price`.  When no live
price is supplied the checker fetches one; the `try/except` around the
fetch becomes a match on the oracle's `Except` value, so a failed fetch
yields an invalid result instead of an escaping exception. -/
def validate_price (ps : String → Except String ℚ) (tol : ℚ)
    (symbol : String) (ai : FVal) (live? : Option FVal) : Bool × Msg :=
  match live? with
  | none =>
    match fetch_live_price ps symbol with
    | .error e => (false, .fetchFailed e)
    | .ok l => validate_price_core tol ai (.num l)
  | some l => validate_price_core tol ai l

/-- Embedding of `PriceAccuracyChecker.validate_price_range`: the
expected-range table is an association list (first binding wins, as in a
Python dict with distinct keys). -/
def validate_price_range (symbol : String) (ai : FVal)
    (expected : List (String × ℚ × ℚ)) : Bool × Msg :=
  match expected.lookup symbol with
  | none => (true, .noRange)
  | some (lo, hi) =>
    if fle (.num lo) ai && fle ai (.num hi) then
      (true, .withinRange ai lo hi)
    else (false, .outsideRange ai lo hi)

/-- Embedding of the opaque Python values stored in a tool-call record's
`params` and `response` payloads. -/
inductive PyVal where
  | str (s : String)
  | num (q : ℚ)
  | list (xs : List PyVal)
  | dict (kvs : List (String × PyVal))
  | pynone
deriving Repr

/-- Embedding of one entry of `ToolCallLogger.calls` as built by
`log_call`: the dict literal with keys `call_id`, `tool`, `params`,
`response`, `timestamp`, `duration_ms` (absent start yields `None`). -/
structure CallRecord where
  call_id : String
  tool : String
  params : List (String × PyVal)
  response : PyVal
  timestamp : String
  duration_ms : Option ℚ
deriving Repr

/-- Embedding of the dict returned by `get_tool_usage_report`
(`call_details` is present only in the non-empty branch). -/
structure UsageReport where
  total_calls : Nat
  tools_used : List String
  avg_response_time : ℚ
  data_sources : List PyVal
  call_details : Option (List CallRecord)
deriving Repr

/-- Embedding of `dict.get(key, default)` on a payload known to be a
dict (association list, first binding wins). -/
def dictGet (kvs : List (String × PyVal)) (key : String) (dflt : PyVal) :
    PyVal :=
  match kvs.lookup key with
  | some v => v
  | none => dflt

/-- Embedding of `x.get(key, default)` on an arbitrary payload: Python
raises `AttributeError` when `x` is not a dict. -/
def pyGet (v : PyVal) (key : String) (dflt : PyVal) :
    Except String PyVal :=
  match v with
  | .dict kvs => .ok (dictGet kvs key dflt)
  | _ => .error "AttributeError: object has no attribute get"

/-- Embedding of `for x in v`: lists iterate their elements, strings
their characters, dicts their keys; numbers and `None` raise
`TypeError`. -/
def pyIter : PyVal → Except String (List PyVal)
  | .list xs => .ok xs
  | .str s => .ok (s.toList.map fun c => .str (String.mk [c]))
  | .dict kvs => .ok (kvs.map fun kv => .str kv.1)
  | .num _ => .error "TypeError: object is not iterable"
  | .pynone => .error "TypeError: object is not iterable"

/-- Equality test used to model membership in a Python `set` of
hashable values.  Containers are unhashable and are rejected before
deduplication ever compares them, so they are mapped to `false` here. -/
def pyEqB : PyVal → PyVal → Bool
  | .str a, .str b => a = b
  | .num a, .num b => a = b
  | .pynone, .pynone => true
  | _, _ => false

/-- True for the payload shapes Python may place in a `set`. -/
def pyHashable : PyVal → Bool
  | .str _ => true
  | .num _ => true
  | .pynone => true
  | _ => false

/-- Order-preserving deduplication (first occurrence kept) modelling
`list(set(xs))` for hashable values; strings in the same process
enumerate deterministically, and no property below depends on the
enumeration order. -/
def dedupPyAux : List PyVal → List PyVal → List PyVal
  | _, [] => []
  | seen, x :: xs =>
    if seen.any (pyEqB · x) then dedupPyAux seen xs
    else x :: dedupPyAux (x :: seen) xs

/-- Embedding of `list(set(xs))` on payload values: raises `TypeError`
when some element is unhashable. -/
def pySetList (xs : List PyVal) : Except String (List PyVal) :=
  if xs.all pyHashable then .ok (dedupPyAux [] xs)
  else .error "TypeError: unhashable type"

/-- Order-preserving string deduplication modelling
`list(set(...))` over the tool names. -/
def dedupStrAux : List String → List String → List String
  | _, [] => []
  | seen, x :: xs =>
    if seen.contains x then dedupStrAux seen xs
    else x :: dedupStrAux (x :: seen) xs

/-- Embedding of the truthiness filter `if c['duration_ms']` applied to
an optional duration: `None` and `0.0` are falsy. -/
def truthyDur (c : CallRecord) : Option ℚ :=
  match c.duration_ms with
  | some d => if d = 0 then none else some d
  | none => none

/-- Embedding of the data-source extraction loop of
`get_tool_usage_report`: `browse_page` records contribute
`params.get('url', '')`; `web_search` records with a dict response
holding a `results` key contribute `result.get('url', '')` for each
element (the `'params' in call` / `'response' in call` guards are
always true for records built by `log_call`).  Elements of `results`
that are not dicts raise `AttributeError`, and a non-iterable `results`
raises `TypeError`, exactly as in Python. -/
def extractSources : List CallRecord → Except String (List PyVal)
  | [] => .ok []
  | c :: cs => do
    let here ←
      if c.tool = "browse_page" then
        pure [dictGet c.params "url" (.str "")]
      else if c.tool = "web_search" then
        match c.response with
        | .dict kvs =>
          if (kvs.lookup "results").isSome then do
            let results ← pyIter (dictGet kvs "results" .pynone)
            results.mapM fun r => pyGet r "url" (.str "")
          else pure []
        | _ => pure []
      else pure []
    let rest ← extractSources cs
    pure (here ++ rest)

/-- Embedding of `ToolCallLogger.get_tool_usage_report`. -/
def get_tool_usage_report (calls : List CallRecord) :
    Except String UsageReport :=
  if calls.isEmpty then
    .ok { total_calls := 0, tools_used := [], avg_response_time := 0,
          data_sources := [], call_details := none }
  else do
    let tools_used := dedupStrAux [] (calls.map (·.tool))
    let avg_time := (calls.filterMap truthyDur).sum / (calls.length : ℚ)
    let raw ← extractSources calls
    let sources ← pySetList raw
    pure { total_calls := calls.length, tools_used := tools_used,
           avg_response_time := avg_time, data_sources := sources,
           call_details := some calls }

/-- Length bound for `List.dropWhile`, used for the scanner's
termination argument. -/
theorem length_dropWhile_le' (p : Char → Bool) (l : List Char) :
    (l.dropWhile p).length ≤ l.length := by
  induction l with
  | nil => simp [List.dropWhile]
  | cons a as ih =>
    simp only [List.dropWhile]
    by_cases h : p a
    · simp [h]; omega
    · simp [h]

/-- Boolean prefix test on character lists (embedding of the anchored
part of a substring search). -/
def startsWithL : List Char → List Char → Bool
  | [], _ => true
  | _ :: _, [] => false
  | a :: as, b :: bs => a = b && startsWithL as bs

/-- Boolean substring test on character lists: embedding of Python's
`in` operator on strings. -/
def hasSub (pat : List Char) : List Char → Bool
  | [] => startsWithL pat []
  | b :: bs => startsWithL pat (b :: bs) || hasSub pat bs

/-- Embedding of `str.lower()` (the texts involved are ASCII). -/
def lowerL (l : List Char) : List Char := l.map Char.toLower

/-- Character class `[\d,]` of the price pattern. -/
def digitComma (c : Char) : Bool := c.isDigit || c = ','

/-- One attempted match of the regex `\$[\d,]+\.?\d*` anchored at the
head of the input: on success returns the matched token and the rest of
the input.  All three quantifiers are greedy and their character classes
are disjoint from what follows, so maximal munch coincides with the
regex engine's behaviour. -/
def matchPriceAt (l : List Char) : Option (List Char × List Char) :=
  match l with
  | [] => none
  | c :: rest =>
    if c = '$' then
      let run1 := rest.takeWhile digitComma
      if run1.isEmpty then none
      else
        let rest1 := rest.dropWhile digitComma
        if rest1.head? = some '.' then
          some ('$' :: run1 ++ '.' :: rest1.tail.takeWhile Char.isDigit,
                rest1.tail.dropWhile Char.isDigit)
        else some ('$' :: run1, rest1)
    else none

/-- A successful anchored match leaves a remainder shorter than the
input. -/
theorem matchPriceAt_rest_lt {l tok rest : List Char}
    (h : matchPriceAt l = some (tok, rest)) : rest.length < l.length := by
  match l with
  | [] => simp [matchPriceAt] at h
  | c :: cs =>
    simp only [matchPriceAt] at h
    split at h
    · split at h
      · exact absurd h (by simp)
      · split at h
        · simp only [Option.some.injEq, Prod.mk.injEq] at h
          have h1 := length_dropWhile_le' Char.isDigit
            (cs.dropWhile digitComma).tail
          have h2 : (cs.dropWhile digitComma).tail.length ≤
              (cs.dropWhile digitComma).length := by
            rw [List.length_tail]; omega
          have h3 := length_dropWhile_le' digitComma cs
          simp only [List.length_cons, ← h.2]
          omega
        · simp only [Option.some.injEq, Prod.mk.injEq] at h
          have h3 := length_dropWhile_le' digitComma cs
          simp only [List.length_cons, ← h.2]
          omega
    · exact absurd h (by simp)

/-- Fuel-indexed scanner behind `findPrices`; one unit of fuel is spent
per position, and a successful match always consumes at least one
character, so `l.length` fuel always suffices. -/
def findPricesAux : Nat → List Char → List (List Char)
  | 0, _ => []
  | _ + 1, [] => []
  | fuel + 1, c :: cs =>
    match matchPriceAt (c :: cs) with
    | some (tok, rest) => tok :: findPricesAux fuel rest
    | none => findPricesAux fuel cs

/-- Embedding of `re.findall(r'\$[\d,]+\.?\d*', text)`: scan left to
right, at each position try the anchored match; on success record the
token and resume after it, otherwise advance one character. -/
def findPrices (l : List Char) : List (List Char) :=
  findPricesAux l.length l

/-- The scanner ignores any amount of sufficient fuel. -/
theorem findPricesAux_congr : ∀ (f1 f2 : Nat) (l : List Char),
    l.length ≤ f1 → l.length ≤ f2 →
    findPricesAux f1 l = findPricesAux f2 l
  | 0, f2, l, h1, _ => by
    have hl : l = [] := List.length_eq_zero.mp (Nat.le_zero.mp h1)
    subst hl; cases f2 <;> rfl
  | _ + 1, 0, l, _, h2 => by
    have hl : l = [] := List.length_eq_zero.mp (Nat.le_zero.mp h2)
    subst hl; rfl
  | _ + 1, _ + 1, [], _, _ => rfl
  | f1 + 1, f2 + 1, c :: cs, h1, h2 => by
    simp only [findPricesAux]
    match hm : matchPriceAt (c :: cs) with
    | some (tok, rest) =>
      have hlt := matchPriceAt_rest_lt hm
      simp only [List.length_cons] at h1 h2 hlt
      show tok :: findPricesAux f1 rest = tok :: findPricesAux f2 rest
      rw [findPricesAux_congr f1 f2 rest (by omega) (by omega)]
    | none =>
      simp only [List.length_cons] at h1 h2
      show findPricesAux f1 cs = findPricesAux f2 cs
      exact findPricesAux_congr f1 f2 cs (by omega) (by omega)

/-- Unfolding equation of the scanner at a nonempty input. -/
theorem findPrices_cons (c : Char) (cs : List Char) :
    findPrices (c :: cs) =
      match matchPriceAt (c :: cs) with
      | some (tok, rest) => tok :: findPrices rest
      | none => findPrices cs := by
  simp only [findPrices, List.length_cons, findPricesAux]
  match hm : matchPriceAt (c :: cs) with
  | some (tok, rest) =>
    have hlt := matchPriceAt_rest_lt hm
    simp only [List.length_cons] at hlt
    show tok :: findPricesAux cs.length rest = tok :: findPrices rest
    rw [findPricesAux_congr cs.length rest.length rest (by omega) (le_refl _)]
    rfl
  | none => rfl

/-- Severity tags carried by hallucination findings. -/
inductive Severity where
  | warning
  | critical
deriving DecidableEq, Repr

/-- Structured form of the variable part of each finding dict (the
`indicator` key for language findings, the `detail` f-strings for the
others). -/
inductive FDetail where
  | indicator (s : String)
  | pricesNoCalls (n : Nat)
  | btcOutdated
  | rangeDetail (m : Msg)
deriving DecidableEq, Repr

/-- Embedding of one hallucination-finding dict (`type`, the
indicator/detail payload, `severity`). -/
structure Finding where
  ftype : String
  detail : FDetail
  severity : Severity
deriving DecidableEq, Repr

/-- The fixed phrase list `HallucinationDetector.outdated_indicators`. -/
def outdated_indicators : List String :=
  ["As of my last update", "Based on my training data", "historically",
   "typically", "usually around", "approximately", "last known"]

/-- Embedding of `HallucinationDetector.check_for_hallucinations`: the
case-insensitive phrase scan, the uncited-dollar-amount check against
the ledger's reported call count, and the `$60`/`BTC` known-stale
check, in source order.  The call to `get_tool_usage_report` can
propagate an exception for malformed ledger payloads, exactly as in
Python. -/
def check_for_hallucinations (text : String) (calls : List CallRecord) :
    Except String (List Finding) := do
  let issues1 := outdated_indicators.filterMap fun ind =>
    if hasSub (lowerL ind.toList) (lowerL text.toList) then
      some (Finding.mk "outdated_language" (.indicator ind) .warning)
    else none
  let rep ← get_tool_usage_report calls
  let prices := findPrices text.toList
  let issues2 : List Finding :=
    if ¬prices.isEmpty ∧ rep.total_calls = 0 then
      [Finding.mk "uncited_data" (.pricesNoCalls prices.length) .critical]
    else []
  let issues3 : List Finding :=
    if hasSub "$60".toList text.toList ∧ hasSub "BTC".toList text.toList then
      [Finding.mk "outdated_price" FDetail.btcOutdated .critical]
    else []
  pure (issues1 ++ issues2 ++ issues3)

/-- Embedding of one recommendation-table row as consumed by the
orchestrator: the `Symbol/Pair` column, the nullable `Entry Price`
column, and the `Action (Buy/Sell)` column (other columns are never
read). -/
structure Row where
  symbol : String
  entryPrice : Option FVal
  action : String

/-- Embedding of `pd.notna(row.get('Entry Price'))`: false for a
missing value and for NaN. -/
def notnaEntry : Option FVal → Bool
  | none => false
  | some .nan => false
  | some (.num _) => true

/-- Embedding of one `price_accuracy` check entry. -/
structure PriceCheck where
  symbol : String
  ai_price : FVal
  valid : Bool
  message : Msg
deriving Repr

/-- Embedding of the `price_accuracy` block (`valid`/`invalid` counters
and the list of checks). -/
structure PAccBlock where
  valid_n : Nat
  invalid_n : Nat
  checks : List PriceCheck
deriving Repr

/-- Embedding of the `data_freshness` block, which `validate_prediction_response`
initializes and never updates. -/
structure DFreshBlock where
  valid_n : Nat
  invalid_n : Nat
deriving Repr

/-- Embedding of the `summary` block. -/
structure SummaryBlock where
  tools_called : Nat
  price_accuracy_rate : ℚ
  hallucination_count : Nat
  critical_issues : Nat
deriving Repr

/-- Embedding of the result dict of `validate_prediction_response`. -/
structure Verdict where
  timestamp : String
  tool_usage : UsageReport
  data_freshness : DFreshBlock
  price_accuracy : PAccBlock
  hallucinations : List Finding
  overall_valid : Bool
  summary : SummaryBlock
deriving Repr

/-- The orchestrator's built-in `expected_ranges` table. -/
def expected_ranges : List (String × ℚ × ℚ) :=
  [("BTC-USD", 115000, 125000), ("ETH-USD", 3800, 4200),
   ("NVDA", 450, 550), ("TSLA", 380, 420), ("AAPL", 195, 205),
   ("GC=F", 2050, 2150)]

/-- The orchestrator's accumulating state while iterating the
recommendation rows: the `price_accuracy` block, the `overall_valid`
flag, the findings list. -/
structure LoopState where
  pa : PAccBlock
  overall : Bool
  halls : List Finding

/-- Embedding of one iteration of the row loop in
`validate_prediction_response`: rows whose entry price is missing or
NaN are skipped; otherwise the live-price check is appended (an invalid
check also clears `overall_valid`), and a failed range check appends a
warning `price_out_of_range` finding. -/
def rowStep (ps : String → Except String ℚ) (tol : ℚ)
    (st : LoopState) (row : Row) : LoopState :=
  if notnaEntry row.entryPrice then
    let ai := row.entryPrice.getD .nan
    let (valid, msg) := validate_price ps tol row.symbol ai none
    let pa1 : PAccBlock :=
      { valid_n := st.pa.valid_n + (if valid then 1 else 0),
        invalid_n := st.pa.invalid_n + (if valid then 0 else 1),
        checks := st.pa.checks ++ [⟨row.symbol, ai, valid, msg⟩] }
    let overall1 := if valid then st.overall else false
    let (rvalid, rmsg) := validate_price_range row.symbol ai expected_ranges
    let halls1 :=
      if rvalid then st.halls
      else st.halls ++ [Finding.mk "price_out_of_range" (.rangeDetail rmsg) .warning]
    ⟨pa1, overall1, halls1⟩
  else st

/-- Embedding of `ValidationOrchestrator.validate_prediction_response`.
The wall-clock timestamp is passed in (model of `datetime.now()`), the
live-price source is the oracle `ps`, and the ledger is the logger's
recorded calls.  The tolerance is the orchestrator's default checker
configuration (1.0). -/
def validate_prediction_response (now : String)
    (ps : String → Except String ℚ) (calls : List CallRecord)
    (response : String) (table : Option (List Row)) :
    Except String Verdict := do
  let rep ← get_tool_usage_report calls
  let halls0 ← check_for_hallucinations response calls
  let st : LoopState :=
    match table with
    | none => ⟨⟨0, 0, []⟩, true, halls0⟩
    | some rows => rows.foldl (rowStep ps 1) ⟨⟨0, 0, []⟩, true, halls0⟩
  let criticals := st.halls.filter (fun h => h.severity = Severity.critical)
  let overall := if ¬criticals.isEmpty then false else st.overall
  let total := st.pa.valid_n + st.pa.invalid_n
  pure { timestamp := now, tool_usage := rep,
         data_freshness := ⟨0, 0⟩, price_accuracy := st.pa,
         hallucinations := st.halls, overall_valid := overall,
         summary :=
           { tools_called := rep.total_calls,
             price_accuracy_rate :=
               if 0 < total then (st.pa.valid_n : ℚ) / (total : ℚ) else 0,
             hallucination_count := st.halls.length,
             critical_issues := criticals.length } }

/-- Embedding of a parsed (timezone-aware or naive) `datetime`
value: calendar fields, microseconds, and an optional UTC offset in
minutes.  `validate_timestamp` drops the offset (`replace(tzinfo=None)`)
before comparing. -/
structure NaiveDT where
  year : Nat
  month : Nat
  day : Nat
  hour : Nat
  minute : Nat
  second : Nat
  micro : Nat
  tzmin : Option Int
deriving DecidableEq, Repr

/-- Take up to `n` leading decimal digits. -/
def takeDigitsUpTo : Nat → List Char → List Char × List Char
  | 0, l => ([], l)
  | _ + 1, [] => ([], [])
  | n + 1, c :: cs =>
    if c.isDigit then
      let (ds, rest) := takeDigitsUpTo n cs
      (c :: ds, rest)
    else ([], c :: cs)

/-- Decimal value of a digit string. -/
def digitsToNat (ds : List Char) : Nat :=
  ds.foldl (fun a c => a * 10 + (c.toNat - '0'.toNat)) 0

/-- Parse exactly `n` digits (the field widths of `fromisoformat` and of
`strptime`'s `%Y`). -/
def parseExactDigits (n : Nat) (l : List Char) : Option (Nat × List Char) :=
  let (ds, rest) := takeDigitsUpTo n l
  if ds.length = n then some (digitsToNat ds, rest) else none

/-- Parse one or two digits (`strptime`'s `%m`, `%d`, `%H`, `%M`, `%S`;
in the two formats used every field is followed by a non-digit, so
maximal munch coincides with the regex alternation). -/
def parse1or2 (l : List Char) : Option (Nat × List Char) :=
  let (ds, rest) := takeDigitsUpTo 2 l
  if ds.isEmpty then none else some (digitsToNat ds, rest)

/-- Consume one expected literal character. -/
def expectChar (c : Char) : List Char → Option (List Char)
  | x :: xs => if x = c then some xs else none
  | [] => none

/-- Consume one or more whitespace characters (a literal space in a
`strptime` format matches `\s+`). -/
def skipSpaces1 (l : List Char) : Option (List Char) :=
  if (l.takeWhile Char.isWhitespace).isEmpty then none
  else some (l.dropWhile Char.isWhitespace)

/-- Leap-year test of the proleptic Gregorian calendar. -/
def isLeap (y : Nat) : Bool :=
  y % 4 = 0 && (y % 100 ≠ 0 || y % 400 = 0)

/-- Number of days in a month. -/
def daysInMonth (y m : Nat) : Nat :=
  if m = 2 then (if isLeap y then 29 else 28)
  else if m = 4 ∨ m = 6 ∨ m = 9 ∨ m = 11 then 30
  else 31

/-- Validity checks performed by the `datetime` constructor; parsing
fails (raising `ValueError` in Python) on out-of-range fields. -/
def mkDT (y mo d h mi s micro : Nat) (tz : Option Int) : Option NaiveDT :=
  if 1 ≤ y ∧ y ≤ 9999 ∧ 1 ≤ mo ∧ mo ≤ 12 ∧ 1 ≤ d ∧ d ≤ daysInMonth y mo ∧
      h ≤ 23 ∧ mi ≤ 59 ∧ s ≤ 59 then
    some ⟨y, mo, d, h, mi, s, micro, tz⟩
  else none

/-- Time-of-day part of an ISO-8601 string:
`HH[:MM[:SS[.ffffff]]]`, two-digit fields, one to six fractional
digits scaled to microseconds. -/
def parseIsoTime (l : List Char) :
    Option (Nat × Nat × Nat × Nat × List Char) := do
  let (h, l1) ← parseExactDigits 2 l
  match l1 with
  | ':' :: l2 =>
    let (mi, l3) ← parseExactDigits 2 l2
    match l3 with
    | ':' :: l4 =>
      let (s, l5) ← parseExactDigits 2 l4
      match l5 with
      | '.' :: l6 =>
        let (ds, rest) := takeDigitsUpTo 6 l6
        if ds.isEmpty then none
        else some (h, mi, s, digitsToNat ds * 10 ^ (6 - ds.length), rest)
      | _ => some (h, mi, s, 0, l5)
    | _ => some (h, mi, 0, 0, l3)
  | _ => some (h, 0, 0, 0, l1)

/-- Magnitude of a UTC offset after its sign. -/
def parseIsoOffsetTail (sign : Int) (l : List Char) :
    Option (Option Int × List Char) := do
  let (hh, l1) ← parseExactDigits 2 l
  if hh ≤ 23 then
    match l1 with
    | ':' :: l2 => do
      let (mm, l3) ← parseExactDigits 2 l2
      if mm ≤ 59 then some (some (sign * (hh * 60 + mm)), l3) else none
    | _ =>
      match parseExactDigits 2 l1 with
      | some (mm, rest) =>
        if mm ≤ 59 then some (some (sign * (hh * 60 + mm)), rest) else none
      | none => some (some (sign * (hh * 60)), l1)
  else none

/-- UTC-offset suffix of an ISO-8601 string: absent, or
`±HH[:MM]`/`±HHMM` with a bounded magnitude. -/
def parseIsoOffset (l : List Char) : Option (Option Int × List Char) :=
  match l with
  | [] => some (none, [])
  | '+' :: l1 => parseIsoOffsetTail 1 l1
  | '-' :: l1 => parseIsoOffsetTail (-1) l1
  | _ => none

/-- Embedding of `datetime.fromisoformat` on the ISO-8601 shapes the
validator can meet: `YYYY-MM-DD`, optionally followed by a one-character
separator and `HH[:MM[:SS[.ffffff]]]` and an optional numeric UTC
offset (a trailing `Z` has already been rewritten to `+00:00` by the
caller). -/
def parseIso (l : List Char) : Option NaiveDT := do
  let (y, l1) ← parseExactDigits 4 l
  let l2 ← expectChar '-' l1
  let (mo, l3) ← parseExactDigits 2 l2
  let l4 ← expectChar '-' l3
  let (d, l5) ← parseExactDigits 2 l4
  match l5 with
  | [] => mkDT y mo d 0 0 0 0 none
  | _ :: l6 => do
    let (h, mi, s, micro, l7) ← parseIsoTime l6
    let (tz, l8) ← parseIsoOffset l7
    if l8.isEmpty then mkDT y mo d h mi s micro tz else none

/-- Embedding of `strptime(ts, '%Y-%m-%d %H:%M:%S')`. -/
def parseFmt1 (l : List Char) : Option NaiveDT := do
  let (y, l1) ← parseExactDigits 4 l
  let l2 ← expectChar '-' l1
  let (mo, l3) ← parse1or2 l2
  let l4 ← expectChar '-' l3
  let (d, l5) ← parse1or2 l4
  let l6 ← skipSpaces1 l5
  let (h, l7) ← parse1or2 l6
  let l8 ← expectChar ':' l7
  let (mi, l9) ← parse1or2 l8
  let l10 ← expectChar ':' l9
  let (s, l11) ← parse1or2 l10
  if l11.isEmpty then mkDT y mo d h mi s 0 none else none

/-- Month-name table for `%B` (matched case-insensitively). -/
def monthTable : List (String × Nat) :=
  [("january", 1), ("february", 2), ("march", 3), ("april", 4),
   ("may", 5), ("june", 6), ("july", 7), ("august", 8),
   ("september", 9), ("october", 10), ("november", 11), ("december", 12)]

/-- Match one month name (case-insensitive) at the head of the input. -/
def findMonth : List (String × Nat) → List Char → Option (Nat × List Char)
  | [], _ => none
  | (nm, i) :: rest, l =>
    if startsWithL nm.toList (lowerL l) then some (i, l.drop nm.length)
    else findMonth rest l

/-- Embedding of `strptime(ts, '%B %d, %Y %H:%M:%S')`. -/
def parseFmtB (l : List Char) : Option NaiveDT := do
  let (mo, l1) ← findMonth monthTable l
  let l2 ← skipSpaces1 l1
  let (d, l3) ← parse1or2 l2
  let l4 ← expectChar ',' l3
  let l5 ← skipSpaces1 l4
  let (y, l6) ← parseExactDigits 4 l5
  let l7 ← skipSpaces1 l6
  let (h, l8) ← parse1or2 l7
  let l9 ← expectChar ':' l8
  let (mi, l10) ← parse1or2 l9
  let l11 ← expectChar ':' l10
  let (s, l12) ← parse1or2 l11
  if l12.isEmpty then mkDT y mo d h mi s 0 none else none

/-- Embedding of `timestamp_str.replace('Z', '+00:00')`. -/
def replaceZ (l : List Char) : List Char :=
  (l.map fun c => if c = 'Z' then "+00:00".toList else [c]).flatten

/-- Days since 1970-01-01 of a proleptic-Gregorian date (the standard
civil-from-days inverse used to embed `datetime` subtraction). -/
def daysFromCivil (y mo d : Nat) : Int :=
  let y' := if mo ≤ 2 then y - 1 else y
  let era := y' / 400
  let yoe := y' - era * 400
  let doy := (153 * (if 2 < mo then mo - 3 else mo + 9) + 2) / 5 + (d - 1)
  let doe := yoe * 365 + yoe / 4 - yoe / 100 + doy
  (era * 146097 + doe : Nat) - (719468 : Int)

/-- Seconds since the epoch of the naive calendar fields (the offset
has been dropped, as `validate_timestamp` does). -/
def toSecQ (dt : NaiveDT) : ℚ :=
  (daysFromCivil dt.year dt.month dt.day : ℚ) * 86400 +
    dt.hour * 3600 + dt.minute * 60 + dt.second + (dt.micro : ℚ) / 1000000

/-- Embedding of
`(current_time - data_time).total_seconds() / 60` on the
timezone-stripped values. -/
def age_minutes (cur data : NaiveDT) : ℚ := (toSecQ cur - toSecQ data) / 60

/-- The parse performed by `validate_timestamp`: strings containing a
`T` go through `fromisoformat` after the `Z` rewrite; the rest try
`%Y-%m-%d %H:%M:%S` and then `%B %d, %Y %H:%M:%S`. -/
def parseTimestamp (ts : String) : Option NaiveDT :=
  let l := ts.toList
  if l.any (· = 'T') then parseIso (replaceZ l)
  else
    match parseFmt1 l with
    | some dt => some dt
    | none => parseFmtB l

/-- Embedding of `DataFreshnessValidator.validate_timestamp` with an
explicit reference time (model of the `current_time` argument, already
timezone-naive).  A parse failure in the ISO branch raises and is
caught by the surrounding `except`, and a failure of both `strptime`
formats hits the `for/else` return; both yield `False`. -/
def validate_timestamp (max_age_minutes : Int) (ts : String)
    (cur : NaiveDT) : Bool :=
  let l := ts.toList
  if l.any (· = 'T') then
    match parseIso (replaceZ l) with
    | none => false
    | some dt => decide (age_minutes cur dt ≤ (max_age_minutes : ℚ))
  else
    match parseFmt1 l with
    | some dt => decide (age_minutes cur dt ≤ (max_age_minutes : ℚ))
    | none =>
      match parseFmtB l with
      | some dt => decide (age_minutes cur dt ≤ (max_age_minutes : ℚ))
      | none => false

/-- Modelled from the spec: the claim that a missing/NaN cited price
short-circuits to "invalid, no comparison possible" requires the
result's explanation not to be one of the two comparison-outcome
messages, which carry a computed deviation.  This predicate holds of
exactly those comparison-outcome messages. -/
def msgReportsComparison : Msg → Bool
  | .withinTol _ _ _ => true
  | .tooLarge _ _ _ => true
  | _ => false

/-! ## Theorems -/

/-- C2: for every symbol, cited price, supplied live price and
tolerance, `validate_price` is valid iff `|cited - live| / live * 100
<= tolerance`; a supplied live price of exactly 0 yields the invalid
"invalid live price" result; and when no live price is supplied and the
fetch fails, the result is invalid with the explanatory fetch-failure
message instead of an escaping exception. -/
theorem validate_price_spec (ps : String → Except String ℚ) (tol : ℚ)
    (symbol : String) (c : ℚ) :
    (∀ l : ℚ, l ≠ 0 →
      ((validate_price ps tol symbol (.num c) (some (.num l))).1 = true ↔
        |c - l| / l * 100 ≤ tol)) ∧
    validate_price ps tol symbol (.num c) (some (.num 0)) =
      (false, .invalidLive) ∧
    (∀ e, ps (normalizeSymbol symbol) = .error e →
      validate_price ps tol symbol (.num c) none = (false, .fetchFailed e)) := by
  refine ⟨fun l hl => ?_, ?_, fun e he => ?_⟩
  · have hne : FVal.num l ≠ FVal.num 0 := by
      intro h; exact hl (FVal.num.injEq l 0 ▸ h ▸ rfl)
    simp only [validate_price, validate_price_core, if_neg hne, fsub, fabs,
      fdiv, if_neg hl, fmul, fleQ]
    by_cases hle : |c - l| / l * 100 ≤ tol
    · simp [hle]
    · simp [hle]
  · simp [validate_price, validate_price_core]
  · simp [validate_price, fetch_live_price, he]

/-- Witness for C2 at concrete inputs: a 0.5% deviation inside the 1%
tolerance is valid. -/
theorem validate_price_spec_witness :
    (validate_price (fun _ => .error "unavailable") 1 "BTC-USD"
        (.num 120600) (some (.num 120000))).1 = true ↔
      |(120600 : ℚ) - 120000| / 120000 * 100 ≤ 1 :=
  (validate_price_spec (fun _ => .error "unavailable") 1 "BTC-USD"
    120600).1 120000 (by norm_num)

/-- C7: `validate_price_range` is valid iff the symbol is absent from
the expected-range table or the cited price lies inside the inclusive
band; in particular a $60,000 BTC-USD citation against the built-in
(115000, 125000) band is invalid. -/
theorem validate_price_range_spec (symbol : String) (q : ℚ)
    (expected : List (String × ℚ × ℚ)) :
    ((validate_price_range symbol (.num q) expected).1 = true ↔
      expected.lookup symbol = none ∨
      ∃ lo hi, expected.lookup symbol = some (lo, hi) ∧ lo ≤ q ∧ q ≤ hi) ∧
    validate_price_range "BTC-USD" (.num 60000) expected_ranges =
      (false, .outsideRange (.num 60000) 115000 125000) := by
  constructor
  · match hlk : expected.lookup symbol with
    | none => simp [validate_price_range, hlk]
    | some (lo, hi) =>
      simp only [validate_price_range, hlk]
      constructor
      · intro h
        split at h
        · next hcond =>
            right
            simp only [fle, Bool.and_eq_true, decide_eq_true_eq] at hcond
            exact ⟨lo, hi, rfl, hcond.1, hcond.2⟩
        · simp at h
      · rintro (h | ⟨lo2, hi2, heq, h1, h2⟩)
        · simp at h
        · injection heq with heq
          rw [Prod.mk.injEq] at heq
          obtain ⟨rfl, rfl⟩ := heq
          simp [fle, h1, h2]
  · decide

/-- C9 counterexample: with a NaN cited price and a nonzero supplied
live price, `validate_price` returns invalid, but its explanation is
the "price difference too large" message carrying the computed NaN
deviation — a comparison-result message, not an explanation that no
comparison was possible. -/
theorem validate_price_nan_counterexample :
    validate_price (fun _ => .error "unavailable") 1 "BTC-USD" .nan
        (some (.num 100)) =
      (false, .tooLarge .nan .nan (.num 100)) ∧
    msgReportsComparison
      (validate_price (fun _ => .error "unavailable") 1 "BTC-USD" .nan
        (some (.num 100))).2 = true := by
  constructor
  · simp [validate_price, validate_price_core, fsub, fabs, fdiv, fmul, fleQ]
  · simp [validate_price, validate_price_core, fsub, fabs, fdiv, fmul, fleQ,
      msgReportsComparison]

/-- C9 as amended: a NaN cited price with a nonzero supplied live price
yields an invalid result without crashing (its NaN deviation fails the
tolerance test, so the message is the too-large one), and rows whose
entry price is missing or NaN never reach `validate_price`: the
orchestrator's row step leaves its state untouched for them. -/
theorem validate_price_nan_amended (ps : String → Except String ℚ)
    (tol : ℚ) (symbol action : String) (l : ℚ) (st : LoopState)
    (hl : l ≠ 0) :
    validate_price ps tol symbol .nan (some (.num l)) =
      (false, .tooLarge .nan .nan (.num l)) ∧
    rowStep ps tol st ⟨symbol, none, action⟩ = st ∧
    rowStep ps tol st ⟨symbol, some .nan, action⟩ = st := by
  refine ⟨?_, ?_, ?_⟩
  · have hne : FVal.num l ≠ FVal.num 0 := by
      intro h; exact hl (FVal.num.injEq l 0 ▸ h ▸ rfl)
    show validate_price_core tol .nan (.num l) = _
    rw [validate_price_core, if_neg hne]
    simp [fsub, fabs, fdiv, fmul, fleQ]
  · simp [rowStep, notnaEntry]
  · simp [rowStep, notnaEntry]

/-- Witness for C9's amended theorem at concrete inputs. -/
theorem validate_price_nan_amended_witness :
    validate_price (fun _ => .error "unavailable") 1 "BTC-USD" .nan
        (some (.num 100)) =
      (false, .tooLarge .nan .nan (.num 100)) ∧
    rowStep (fun _ => .error "unavailable") 1 ⟨⟨0, 0, []⟩, true, []⟩
        ⟨"BTC-USD", none, "Buy"⟩ = ⟨⟨0, 0, []⟩, true, []⟩ ∧
    rowStep (fun _ => .error "unavailable") 1 ⟨⟨0, 0, []⟩, true, []⟩
        ⟨"BTC-USD", some .nan, "Buy"⟩ = ⟨⟨0, 0, []⟩, true, []⟩ :=
  validate_price_nan_amended (fun _ => .error "unavailable") 1 "BTC-USD"
    "Buy" 100 ⟨⟨0, 0, []⟩, true, []⟩ (by norm_num)

/-- Numeric value, in millionths of a dollar, of an extracted
dollar-amount token: drop the `$`, ignore thousands separators, read
the integer digits and up to six fractional digits. -/
def tokenValueMicro (tok : List Char) : Nat :=
  let body := (tok.drop 1).filter (· ≠ ',')
  let intPart := body.takeWhile (· ≠ '.')
  let fracPart := ((body.dropWhile (· ≠ '.')).drop 1).take 6
  digitsToNat intPart * 1000000 +
    digitsToNat fracPart * 10 ^ (6 - fracPart.length)

/-- Modelled from the spec: "the text contains a dollar amount around
$60,000" — some extracted dollar-amount token has a numeric value
within ten percent of 60000.  (The code itself has no such notion; it
tests for the raw substring `$60`.) -/
def specAmountAround60k (text : String) : Bool :=
  (findPrices text.toList).any fun tok =>
    decide (54000 * 1000000 ≤ tokenValueMicro tok) &&
      decide (tokenValueMicro tok ≤ 66000 * 1000000)

/-- C5 counterexample: on a text mentioning BTC together with a $60
fee — no dollar amount anywhere near $60,000 — the detector still
emits the critical `outdated_price` finding, because the code's check
is the raw substring test `'$60' in text and 'BTC' in text`. -/
theorem outdated_price_counterexample :
    check_for_hallucinations "BTC network fee was $60 today" [] =
      .ok [Finding.mk "uncited_data" (.pricesNoCalls 1) .critical,
           Finding.mk "outdated_price" FDetail.btcOutdated .critical] ∧
    specAmountAround60k "BTC network fee was $60 today" = false := by
  constructor
  · rfl
  · decide

/-- C5 as amended: the critical `outdated_price` finding is emitted
exactly when the response text contains the substring `$60` and the
substring `BTC` (a test that also fires on amounts such as $60 or $600
that are not around $60,000, and misses stale ~$60k amounts written
without the literal digits `60` right after the dollar sign). -/
theorem outdated_price_amended (text : String) (calls : List CallRecord)
    (fs : List Finding)
    (h : check_for_hallucinations text calls = .ok fs) :
    (∃ f ∈ fs, f.ftype = "outdated_price" ∧ f.severity = .critical) ↔
      (hasSub "$60".toList text.toList = true ∧
        hasSub "BTC".toList text.toList = true) := by
  match hrep : get_tool_usage_report calls with
  | .error e =>
    rw [check_for_hallucinations] at h
    simp [hrep, Except.bind] at h
  | .ok rep =>
    rw [check_for_hallucinations] at h
    simp only [hrep, Except.bind, bind, pure, Except.pure, Except.ok.injEq] at h
    subst h
    constructor
    · rintro ⟨f, hf, hft, _⟩
      simp only [List.mem_append] at hf
      rcases hf with (hf | hf) | hf
      · exfalso
        simp only [List.mem_filterMap] at hf
        obtain ⟨ind, _, hind⟩ := hf
        by_cases hc : hasSub (lowerL ind.toList) (lowerL text.toList) = true
        · simp only [hc, if_true, Option.some.injEq] at hind
          rw [← hind] at hft
          simp at hft
        · simp only [hc] at hind
          simp at hind
      · exfalso
        split at hf
        · simp only [List.mem_singleton] at hf
          rw [hf] at hft
          simp at hft
        · simp at hf
      · split at hf
        · next hc =>
            exact ⟨hc.1, hc.2⟩
        · simp at hf
    · rintro ⟨h1, h2⟩
      refine ⟨Finding.mk "outdated_price" FDetail.btcOutdated .critical,
        ?_, rfl, rfl⟩
      simp only [List.mem_append]
      right
      have hc : hasSub "$60".toList text.toList = true ∧
          hasSub "BTC".toList text.toList = true := ⟨h1, h2⟩
      rw [if_pos hc]
      exact List.mem_singleton_self _

/-- Witness for C5's amended theorem at a concrete text with both
substrings present. -/
theorem outdated_price_amended_witness :
    (∃ f ∈ [Finding.mk "uncited_data" (FDetail.pricesNoCalls 1)
              Severity.critical,
            Finding.mk "outdated_price" FDetail.btcOutdated
              Severity.critical],
        f.ftype = "outdated_price" ∧ f.severity = Severity.critical) ↔
      (hasSub "$60".toList "BTC at $60,000".toList = true ∧
        hasSub "BTC".toList "BTC at $60,000".toList = true) :=
  outdated_price_amended "BTC at $60,000" [] _ rfl

/-- The uncited-data findings of a finding list. -/
def uncitedOf (fs : List Finding) : List Finding :=
  fs.filter fun f => f.ftype = "uncited_data"

/-- The scanner finds a token exactly when the anchored pattern matches
at some position of the text. -/
theorem findPrices_ne_nil_iff : ∀ l : List Char,
    findPrices l ≠ [] ↔ ∃ p r, l = p ++ r ∧ (matchPriceAt r).isSome := by
  intro l
  induction l with
  | nil =>
    constructor
    · intro h; exact absurd rfl h
    · rintro ⟨p, r, heq, hs⟩
      rw [List.nil_eq, List.append_eq_nil] at heq
      rw [heq.2] at hs
      simp [matchPriceAt] at hs
  | cons c cs ih =>
    rw [findPrices_cons]
    match hm : matchPriceAt (c :: cs) with
    | some (tok, rest) =>
      constructor
      · intro _
        exact ⟨[], c :: cs, rfl, by rw [hm]; rfl⟩
      · intro _
        exact List.cons_ne_nil _ _
    | none =>
      constructor
      · intro hne
        obtain ⟨p, r, heq, hs⟩ := ih.mp hne
        exact ⟨c :: p, r, by rw [heq, List.cons_append], hs⟩
      · rintro ⟨p, r, heq, hs⟩
        match p, heq with
        | [], heq =>
          rw [List.nil_append] at heq
          rw [← heq, hm] at hs
          simp at hs
        | q :: ps, heq =>
          rw [List.cons_append] at heq
          injection heq with h1 h2
          exact ih.mpr ⟨ps, r, h2, hs⟩

/-- C4: the detector emits exactly one critical `uncited_data` finding,
whose detail carries the number of extracted dollar-amount tokens, iff
the text contains at least one dollar-amount-like substring (the
anchored pattern matches somewhere) and the ledger's reported total
call count — which equals the number of recorded calls — is zero;
otherwise it emits none. -/
theorem uncited_data_spec (text : String) (calls : List CallRecord)
    (rep : UsageReport) (hrep : get_tool_usage_report calls = .ok rep)
    (fs : List Finding)
    (h : check_for_hallucinations text calls = .ok fs) :
    (uncitedOf fs =
      if ¬(findPrices text.toList).isEmpty ∧ rep.total_calls = 0 then
        [Finding.mk "uncited_data"
          (.pricesNoCalls (findPrices text.toList).length) .critical]
      else []) ∧
    rep.total_calls = calls.length ∧
    (¬(findPrices text.toList).isEmpty ↔
      ∃ p r, text.toList = p ++ r ∧ (matchPriceAt r).isSome) := by
  refine ⟨?_, ?_, ?_⟩
  · rw [check_for_hallucinations] at h
    simp only [hrep, Except.bind, bind, pure, Except.pure, Except.ok.injEq] at h
    subst h
    rw [uncitedOf, List.filter_append, List.filter_append]
    have h1 : (outdated_indicators.filterMap fun ind =>
        if hasSub (lowerL ind.toList) (lowerL text.toList) then
          some (Finding.mk "outdated_language" (.indicator ind) .warning)
        else none).filter (fun f => f.ftype = "uncited_data") = [] := by
      rw [List.filter_eq_nil_iff]
      intro f hf
      simp only [List.mem_filterMap] at hf
      obtain ⟨ind, _, hind⟩ := hf
      by_cases hc : hasSub (lowerL ind.toList) (lowerL text.toList) = true
      · simp only [hc, if_true, Option.some.injEq] at hind
        rw [← hind]
        simp
      · simp only [hc] at hind
        simp at hind
    have h3 : ((if hasSub "$60".toList text.toList = true ∧
          hasSub "BTC".toList text.toList = true then
          [Finding.mk "outdated_price" FDetail.btcOutdated .critical]
        else []).filter (fun f => f.ftype = "uncited_data")) = [] := by
      split
      · rfl
      · rfl
    rw [h1, h3, List.nil_append, List.append_nil]
    split
    · rfl
    · rfl
  · match hc : calls with
    | [] =>
      rw [get_tool_usage_report] at hrep
      simp only [List.isEmpty_nil, if_true, Except.ok.injEq] at hrep
      rw [← hrep]
      rfl
    | c :: cs =>
      rw [get_tool_usage_report] at hrep
      simp only [List.isEmpty_cons] at hrep
      rw [if_neg (by simp)] at hrep
      match hx : extractSources (c :: cs) with
      | .error e => rw [hx] at hrep; simp [Except.bind, bind] at hrep
      | .ok raw =>
        rw [hx] at hrep
        match hy : pySetList raw with
        | .error e => simp [hy, Except.bind, bind] at hrep
        | .ok srcs =>
          simp only [hy, Except.bind, bind, pure, Except.pure,
            Except.ok.injEq] at hrep
          rw [← hrep]
  · rw [List.isEmpty_iff]
    exact findPrices_ne_nil_iff text.toList

/-- Witness for C4 at a concrete text and the empty ledger. -/
theorem uncited_data_spec_witness :
    (uncitedOf [Finding.mk "uncited_data" (FDetail.pricesNoCalls 1)
        Severity.critical] =
      if ¬(findPrices "Price is $5".toList).isEmpty ∧ (0 : Nat) = 0 then
        [Finding.mk "uncited_data"
          (FDetail.pricesNoCalls (findPrices "Price is $5".toList).length)
          Severity.critical]
      else []) ∧
    (0 : Nat) = ([] : List CallRecord).length ∧
    (¬(findPrices "Price is $5".toList).isEmpty ↔
      ∃ p r, "Price is $5".toList = p ++ r ∧ (matchPriceAt r).isSome) :=
  uncited_data_spec "Price is $5" [] ⟨0, [], 0, [], none⟩ rfl
    [Finding.mk "uncited_data" (FDetail.pricesNoCalls 1) Severity.critical]
    rfl

/-- Modelled from the spec: the arithmetic mean of the durations of the
recorded tool calls — the sum of the durations that are present divided
by their number (no value when no call carries a duration). -/
def specMeanDuration (calls : List CallRecord) : Option ℚ :=
  let ds := calls.filterMap (·.duration_ms)
  if ds.isEmpty then none else some (ds.sum / (ds.length : ℚ))

/-- The two-call ledger of the C8 counterexample: one 100 ms call and
one call recorded without a duration. -/
def c8badCalls : List CallRecord :=
  [⟨"a", "t1", [], .pynone, "ts", some 100⟩,
   ⟨"b", "t2", [], .pynone, "ts", none⟩]

/-- C8 counterexample: on `c8badCalls` the report's average response
time is 100 / 2 = 50, not the arithmetic mean (100) of the recorded
durations — the sum of present durations is divided by the total call
count, including the duration-less call. -/
theorem avg_response_time_counterexample :
    (get_tool_usage_report c8badCalls).map
      (fun r => r.avg_response_time) = .ok 50 ∧
    specMeanDuration c8badCalls = some 100 ∧
    (50 : ℚ) ≠ 100 := by
  refine ⟨?_, ?_, by norm_num⟩
  · have h1 : (get_tool_usage_report c8badCalls).map
        (fun r => r.avg_response_time) =
        .ok ((c8badCalls.filterMap truthyDur).sum /
          ((c8badCalls.length : ℕ) : ℚ)) := rfl
    rw [h1]
    have h2 : (c8badCalls.filterMap truthyDur) = [100] := rfl
    rw [h2]
    norm_num [c8badCalls]
  · have h1 : c8badCalls.filterMap (·.duration_ms) = [100] := rfl
    rw [specMeanDuration, h1]
    norm_num

/-- The truthiness filter on durations drops `None` and zero entries,
so its sum equals the sum of all present durations. -/
theorem sum_truthyDur (calls : List CallRecord) :
    (calls.filterMap truthyDur).sum =
      (calls.filterMap (·.duration_ms)).sum := by
  induction calls with
  | nil => rfl
  | cons c cs ih =>
    match hd : c.duration_ms with
    | none =>
      simp only [List.filterMap_cons, truthyDur, hd]
      exact ih
    | some d =>
      by_cases hz : d = 0
      · simp only [List.filterMap_cons, truthyDur, hd, hz, if_pos rfl]
        simp [List.sum_cons, ih]
      · simp only [List.filterMap_cons, truthyDur, hd, if_neg hz]
        simp [List.sum_cons, ih]

/-- When every call carries a duration, the present durations are in
bijection with the calls. -/
theorem length_durations (calls : List CallRecord)
    (hall : ∀ c ∈ calls, c.duration_ms ≠ none) :
    (calls.filterMap (·.duration_ms)).length = calls.length := by
  induction calls with
  | nil => rfl
  | cons c cs ih =>
    match hd : c.duration_ms with
    | none => exact absurd hd (hall c (List.mem_cons_self c cs))
    | some d =>
      simp only [List.filterMap_cons, hd, List.length_cons]
      rw [ih fun x hx => hall x (List.mem_cons_of_mem c hx)]

/-- Reading the report fields of a non-empty ledger. -/
theorem report_fields (c : CallRecord) (cs : List CallRecord)
    (rep : UsageReport)
    (hrep : get_tool_usage_report (c :: cs) = .ok rep) :
    rep.avg_response_time =
      ((c :: cs).filterMap truthyDur).sum / (((c :: cs).length : ℚ)) := by
  rw [get_tool_usage_report] at hrep
  simp only [List.isEmpty_cons] at hrep
  rw [if_neg (by simp)] at hrep
  match hx : extractSources (c :: cs) with
  | .error e => rw [hx] at hrep; simp [Except.bind, bind] at hrep
  | .ok raw =>
    rw [hx] at hrep
    match hy : pySetList raw with
    | .error e => simp [hy, Except.bind, bind] at hrep
    | .ok srcs =>
      simp only [hy, Except.bind, bind, pure, Except.pure,
        Except.ok.injEq] at hrep
      rw [← hrep]

/-- C8 as amended: for every non-empty ledger whose report succeeds,
the reported average response time is the sum of the recorded non-null
durations divided by the total number of recorded calls (duration-less
calls still count in the denominator); when every recorded call
carries a duration this coincides with the arithmetic mean of the
recorded durations. -/
theorem avg_response_time_amended (calls : List CallRecord)
    (rep : UsageReport) (hrep : get_tool_usage_report calls = .ok rep)
    (hne : calls ≠ []) :
    rep.avg_response_time =
      (calls.filterMap (·.duration_ms)).sum / ((calls.length : ℕ) : ℚ) ∧
    ((∀ c ∈ calls, c.duration_ms ≠ none) →
      specMeanDuration calls = some rep.avg_response_time) := by
  match calls, hne with
  | c :: cs, _ =>
    have havg : rep.avg_response_time =
        ((c :: cs).filterMap (·.duration_ms)).sum /
          (((c :: cs).length : ℕ) : ℚ) := by
      rw [report_fields c cs rep hrep, sum_truthyDur]
    refine ⟨havg, fun hall => ?_⟩
    rw [havg, specMeanDuration]
    have hlen := length_durations (c :: cs) hall
    have hds : ((c :: cs).filterMap (·.duration_ms)).isEmpty = false := by
      rw [List.isEmpty_eq_false_iff_exists_mem]
      match hd : c.duration_ms with
      | none => exact absurd hd (hall c (List.mem_cons_self c cs))
      | some d =>
        exact ⟨d, by simp only [List.filterMap_cons, hd]
                     exact List.mem_cons_self d _⟩
    rw [hds]
    simp only [Bool.false_eq_true, if_false, Option.some.injEq]
    rw [hlen]

/-- The two-call ledger (both durations present) of the C8 witness. -/
def c8goodCalls : List CallRecord :=
  [⟨"a", "t1", [], .pynone, "ts", some 100⟩,
   ⟨"b", "t2", [], .pynone, "ts", some 200⟩]

/-- The report produced for `c8goodCalls`. -/
def c8goodRep : UsageReport :=
  match get_tool_usage_report c8goodCalls with
  | .ok r => r
  | .error _ => ⟨0, [], 0, [], none⟩

/-- Witness for C8's amended theorem on a two-call ledger with both
durations present: the general formula and the mean coincidence both
instantiate. -/
theorem avg_response_time_amended_witness :
    c8goodRep.avg_response_time =
      (c8goodCalls.filterMap (·.duration_ms)).sum /
        ((c8goodCalls.length : ℕ) : ℚ) ∧
    specMeanDuration c8goodCalls = some c8goodRep.avg_response_time :=
  ⟨(avg_response_time_amended c8goodCalls c8goodRep rfl
      (by simp [c8goodCalls])).1,
   (avg_response_time_amended c8goodCalls c8goodRep rfl
      (by simp [c8goodCalls])).2 (by decide)⟩

/-- Erase the only field `validate_prediction_response` derives from
the wall clock. -/
def stripTimestamp (v : Verdict) : Verdict := { v with timestamp := "" }

/-- C10: two validation runs over the same response, table, unchanged
ledger and live-price observations produce verdicts equal in every
field except the timestamp. -/
theorem validate_idempotent (t1 t2 : String)
    (ps : String → Except String ℚ) (calls : List CallRecord)
    (response : String) (table : Option (List Row)) :
    (validate_prediction_response t1 ps calls response table).map
        stripTimestamp =
      (validate_prediction_response t2 ps calls response table).map
        stripTimestamp := by
  rw [validate_prediction_response, validate_prediction_response]
  match hrep : get_tool_usage_report calls with
  | .error e => rfl
  | .ok rep =>
    match hh : check_for_hallucinations response calls with
    | .error e => rfl
    | .ok halls0 => rfl

/-- The malformed-but-reachable ledger of the C6 failing input: a
`web_search` call whose response carries a `results` list holding a
number instead of a result dict. -/
def badLedger : List CallRecord :=
  [⟨"c1", "web_search", [], .dict [("results", .list [.num 42])], "t",
    some 10⟩]

/-- C6 failing input: on `badLedger` the data-source extraction calls
`.get` on the integer result entry, so `get_tool_usage_report` — and
with it `validate_prediction_response` — raises `AttributeError`
instead of returning a verdict, contradicting the never-throws
contract. -/
theorem validate_throws_on_malformed_ledger :
    validate_prediction_response "now" (fun _ => .error "unavailable")
        badLedger "text" none =
      .error "AttributeError: object has no attribute get" ∧
    get_tool_usage_report badLedger =
      .error "AttributeError: object has no attribute get" := by
  constructor
  · rfl
  · rfl

/-- The price check a single row contributes (none when the row's
entry price is missing or NaN). -/
def rowCheck (ps : String → Except String ℚ) (tol : ℚ) (row : Row) :
    Option PriceCheck :=
  if notnaEntry row.entryPrice then
    let ai := row.entryPrice.getD .nan
    let (valid, msg) := validate_price ps tol row.symbol ai none
    some ⟨row.symbol, ai, valid, msg⟩
  else none

/-- The `price_out_of_range` warning a single row contributes (none
when the row is skipped or its range check passes). -/
def rowWarn (row : Row) : Option Finding :=
  if notnaEntry row.entryPrice then
    let ai := row.entryPrice.getD .nan
    let (rvalid, rmsg) := validate_price_range row.symbol ai expected_ranges
    if rvalid then none
    else some (Finding.mk "price_out_of_range" (.rangeDetail rmsg) .warning)
  else none

/-- Characterization of the orchestrator's row loop: the checks are the
per-row checks in order, the running validity flag is the conjunction
of their verdicts, and the findings gain the per-row range warnings. -/
theorem foldl_rowStep_spec (ps : String → Except String ℚ) (tol : ℚ) :
    ∀ (rows : List Row) (st : LoopState),
      ((rows.foldl (rowStep ps tol) st).pa.checks =
        st.pa.checks ++ rows.filterMap (rowCheck ps tol)) ∧
      ((rows.foldl (rowStep ps tol) st).overall =
        (st.overall && (rows.filterMap (rowCheck ps tol)).all (·.valid))) ∧
      ((rows.foldl (rowStep ps tol) st).halls =
        st.halls ++ rows.filterMap rowWarn)
  | [], st => by simp
  | row :: rows, st => by
    simp only [List.foldl_cons, List.filterMap_cons]
    obtain ⟨h1, h2, h3⟩ :=
      foldl_rowStep_spec ps tol rows (rowStep ps tol st row)
    by_cases hn : notnaEntry row.entryPrice
    · match hv : validate_price ps tol row.symbol
          (row.entryPrice.getD .nan) none with
      | (valid, msg) =>
        match hr : validate_price_range row.symbol
            (row.entryPrice.getD .nan) expected_ranges with
        | (rvalid, rmsg) =>
          have hstep : rowStep ps tol st row =
              ⟨{ valid_n := st.pa.valid_n + (if valid then 1 else 0),
                 invalid_n := st.pa.invalid_n + (if valid then 0 else 1),
                 checks := st.pa.checks ++
                   [⟨row.symbol, row.entryPrice.getD .nan, valid, msg⟩] },
               if valid then st.overall else false,
               if rvalid then st.halls
               else st.halls ++ [Finding.mk "price_out_of_range"
                 (.rangeDetail rmsg) .warning]⟩ := by
            simp only [rowStep, if_pos hn, hv, hr]
          have hrc : rowCheck ps tol row =
              some ⟨row.symbol, row.entryPrice.getD .nan, valid, msg⟩ := by
            simp only [rowCheck, if_pos hn, hv]
          have hrw : rowWarn row =
              (if rvalid then none
               else some (Finding.mk "price_out_of_range"
                 (.rangeDetail rmsg) .warning)) := by
            simp only [rowWarn, if_pos hn, hr]
          refine ⟨?_, ?_, ?_⟩
          · rw [h1, hstep, hrc]
            simp
          · rw [h2, hstep, hrc]
            match valid with
            | true => simp
            | false => simp
          · rw [h3, hstep, hrw]
            match rvalid with
            | true => simp
            | false => simp
    · obtain ⟨h1, h2, h3⟩ := foldl_rowStep_spec ps tol rows st
      have hstep : rowStep ps tol st row = st := by
        rw [rowStep, if_neg hn]
      have hrc : rowCheck ps tol row = none := by
        rw [rowCheck, if_neg hn]
      have hrw : rowWarn row = none := by
        rw [rowWarn, if_neg hn]
      rw [hrc, hrw, hstep]
      exact ⟨h1, h2, h3⟩

/-- The aggregation step of `validate_prediction_response`: the final
flag is false exactly when some check failed or some finding is
critical. -/
theorem overall_iff_core (checks : List PriceCheck)
    (halls : List Finding) (ov : Bool)
    (hov : ov = checks.all (·.valid)) :
    ((if ¬(halls.filter
          (fun f => f.severity = Severity.critical)).isEmpty then false
      else ov) = false ↔
      (∃ c ∈ checks, c.valid = false) ∨
      ∃ f ∈ halls, f.severity = Severity.critical) := by
  by_cases hcrit :
      (halls.filter (fun f => f.severity = Severity.critical)).isEmpty = true
  · have hnone : ∀ f ∈ halls, ¬(f.severity = Severity.critical) := by
      rw [List.isEmpty_iff, List.filter_eq_nil_iff] at hcrit
      intro f hf
      have hx := hcrit f hf
      simpa using hx
    rw [if_neg (not_not_intro hcrit)]
    rw [hov, List.all_eq_false]
    constructor
    · intro ⟨c, hc, hval⟩
      exact Or.inl ⟨c, hc, by simpa using hval⟩
    · rintro (⟨c, hc, hval⟩ | ⟨f, hf, hsev⟩)
      · exact ⟨c, hc, by simp [hval]⟩
      · exact absurd hsev (hnone f hf)
  · rw [if_pos hcrit]
    have hex : ∃ f ∈ halls, f.severity = Severity.critical := by
      have hne : (halls.filter
          (fun f => f.severity = Severity.critical)).isEmpty = false := by
        cases hx : (halls.filter
            (fun f => f.severity = Severity.critical)).isEmpty
        · rfl
        · exact absurd hx hcrit
      rw [List.isEmpty_eq_false_iff_exists_mem] at hne
      obtain ⟨f, hf⟩ := hne
      rw [List.mem_filter] at hf
      exact ⟨f, hf.1, by simpa using hf.2⟩
    exact iff_of_true rfl (Or.inr hex)

/-- C1: the verdict's overall validity flag is false iff at least one
price-accuracy check of the run is invalid or at least one
hallucination finding in the verdict has critical severity; otherwise
it is true. -/
theorem overall_valid_spec (now : String) (ps : String → Except String ℚ)
    (calls : List CallRecord) (response : String)
    (table : Option (List Row)) (v : Verdict)
    (h : validate_prediction_response now ps calls response table =
      .ok v) :
    (v.overall_valid = false ↔
      (∃ c ∈ v.price_accuracy.checks, c.valid = false) ∨
      ∃ f ∈ v.hallucinations, f.severity = Severity.critical) := by
  rw [validate_prediction_response] at h
  match hrep : get_tool_usage_report calls with
  | .error e => rw [hrep] at h; simp [Except.bind, bind] at h
  | .ok rep =>
    rw [hrep] at h
    match hh : check_for_hallucinations response calls with
    | .error e => simp [hh, Except.bind, bind] at h
    | .ok halls0 =>
      simp only [hh, Except.bind, bind, pure, Except.pure,
        Except.ok.injEq] at h
      subst h
      match table with
      | none => exact overall_iff_core [] halls0 true rfl
      | some rows =>
        obtain ⟨h1, h2, h3⟩ :=
          foldl_rowStep_spec ps 1 rows ⟨⟨0, 0, []⟩, true, halls0⟩
        have hov : (rows.foldl (rowStep ps 1)
            ⟨⟨0, 0, []⟩, true, halls0⟩).overall =
            ((rows.foldl (rowStep ps 1)
              ⟨⟨0, 0, []⟩, true, halls0⟩).pa.checks).all (·.valid) := by
          rw [h1, h2]
          simp
        exact overall_iff_core _ _ _ hov

/-- The ledger, response and verdict of the C1 witness run. -/
def c1v : Verdict :=
  match validate_prediction_response "now" (fun _ => Except.ok 120000) []
      "As of my last update, BTC is at $60,000" none with
  | .ok v => v
  | .error _ =>
    ⟨"", ⟨0, [], 0, [], none⟩, ⟨0, 0⟩, ⟨0, 0, []⟩, [], true, ⟨0, 0, 0, 0⟩⟩

/-- Witness for C1 on a concrete run (empty ledger, stale-BTC response,
no table). -/
theorem overall_valid_spec_witness :
    c1v.overall_valid = false ↔
      (∃ c ∈ c1v.price_accuracy.checks, c.valid = false) ∨
      ∃ f ∈ c1v.hallucinations, f.severity = Severity.critical :=
  overall_valid_spec "now" (fun _ => Except.ok 120000) []
    "As of my last update, BTC is at $60,000" none c1v rfl

/-- C3: `validate_timestamp` returns true iff the timestamp string
parses under one of the accepted formats (ISO-8601 via the `T` branch,
`%Y-%m-%d %H:%M:%S`, `%B %d, %Y %H:%M:%S`) and the age
`ref - parse(t)` is at most `max_age` minutes; it returns false (never
an exception) when no format parses; and a future timestamp — negative
age — is always fresh for a nonnegative age bound. -/
theorem validate_timestamp_spec (max_age : Int) (ts : String)
    (cur : NaiveDT) :
    (validate_timestamp max_age ts cur = true ↔
      ∃ dt, parseTimestamp ts = some dt ∧
        age_minutes cur dt ≤ (max_age : ℚ)) ∧
    (parseTimestamp ts = none →
      validate_timestamp max_age ts cur = false) ∧
    (∀ dt, parseTimestamp ts = some dt → 0 ≤ max_age →
      toSecQ cur ≤ toSecQ dt →
      validate_timestamp max_age ts cur = true) := by
  have hkey : validate_timestamp max_age ts cur =
      (match parseTimestamp ts with
       | none => false
       | some dt => decide (age_minutes cur dt ≤ (max_age : ℚ))) := by
    rw [validate_timestamp, parseTimestamp]
    by_cases hT : (ts.toList.any (· = 'T')) = true
    · simp only [hT, if_true]
    · simp only [hT, Bool.false_eq_true, if_false]
      match parseFmt1 ts.toList with
      | some dt => rfl
      | none =>
        match parseFmtB ts.toList with
        | some dt => rfl
        | none => rfl
  refine ⟨?_, ?_, ?_⟩
  · rw [hkey]
    match hp : parseTimestamp ts with
    | none =>
      simp
    | some dt =>
      simp
  · intro hp
    rw [hkey, hp]
  · intro dt hp hma hfut
    rw [hkey, hp]
    simp only [decide_eq_true_eq]
    rw [age_minutes]
    have h1 : toSecQ cur - toSecQ dt ≤ 0 := by linarith
    have h2 : (toSecQ cur - toSecQ dt) / 60 ≤ 0 :=
      div_nonpos_of_nonpos_of_nonneg h1 (by norm_num)
    have h3 : (0 : ℚ) ≤ (max_age : ℚ) := by exact_mod_cast hma
    linarith

/-- Witness for C3: a timestamp one hour in the future of the
reference time parses in the ISO branch and is accepted as fresh under
a 5-minute bound. -/
theorem validate_timestamp_spec_witness :
    validate_timestamp 5 "2024-12-18T15:00:00"
      ⟨2024, 12, 18, 14, 0, 0, 0, none⟩ = true :=
  (validate_timestamp_spec 5 "2024-12-18T15:00:00"
      ⟨2024, 12, 18, 14, 0, 0, 0, none⟩).2.2
    ⟨2024, 12, 18, 15, 0, 0, 0, none⟩ rfl (by norm_num)
    (by norm_num [toSecQ, daysFromCivil, isLeap])

end TV
